import Mathlib

/-!
# Verification of `ppagerank` (distributed PageRank driver)

Shallow embedding of `src/ppagerank.cc` together with the components the
driver delegates to.  The driver itself (option handling, `WriteHeader`,
the `MatLoadBSMAT` call, `WriteSimpleMatrixStats`, the `ComputePageRank`
stub) is embedded from the source.  The matrix loader, partition balancer
and the PageRank iteration engine are not implemented in the source tree
(the driver only declares a stub for `ComputePageRank` and comments out its
call), so those components are modelled from the specification, as marked
in their doc comments.
-/

namespace PPageRank

/-! ## The PageRank iteration engine (spec sections 4.3 and 4.4)

The engine is absent from the source (`ComputePageRank` at
`src/ppagerank.cc:231-234` is an empty stub), so the definitions below are
modelled from the specification.  Vectors and matrices are total functions
on `Fin n`; every global index is locally owned by exactly one process, so
the assembled global view of the distributed data is a function `Fin n → ℚ`.
Distributed sum-reductions are folds over the list of indices. -/

/-- Modelled from the spec: a global sum-reduction (a collective reduce of
one scalar contribution per index), as a fold. -/
def reduceSum (l : List ℚ) : ℚ := l.foldr (· + ·) 0

/-- Modelled from the spec (§4.3): out-degree weight of row `r`, the sum of
the row's entries, computed once at matrix-build time. -/
def outdeg (n : ℕ) (A : Fin n → Fin n → ℚ) (r : Fin n) : ℚ :=
  reduceSum ((List.finRange n).map (fun c => A r c))

/-- Modelled from the spec (§4.3): per-row out-degree normalization of the
raw edge weights, so that effective rows sum to 1 except dangling rows
(zero out-degree), which sum to 0. -/
def pmat (n : ℕ) (A : Fin n → Fin n → ℚ) (r c : Fin n) : ℚ :=
  if outdeg n A r = 0 then 0 else A r c / outdeg n A r

/-- Modelled from the spec (§4.3): the distributed sparse matrix-vector
multiply in the row-major outlink convention: mass of node `j` flows along
its normalized out-edges into `y i = ∑ j, P j i * x j`. -/
def multiply (n : ℕ) (A : Fin n → Fin n → ℚ) (x : Fin n → ℚ) (i : Fin n) : ℚ :=
  reduceSum ((List.finRange n).map (fun j => pmat n A j i * x j))

/-- Modelled from the spec (§4.4 step 1): `dangling_mass`, the global
reduction of the current vector over dangling rows. -/
def danglingMass (n : ℕ) (A : Fin n → Fin n → ℚ) (x : Fin n → ℚ) : ℚ :=
  reduceSum ((List.finRange n).map (fun r => if outdeg n A r = 0 then x r else 0))

/-- Modelled from the spec (§4.4 steps 1-3): one transition step of the
iteration engine, producing the next estimate from the current one. -/
def prStep (n : ℕ) (A : Fin n → Fin n → ℚ) (p : Fin n → ℚ) (alpha : ℚ)
    (x : Fin n → ℚ) (i : Fin n) : ℚ :=
  alpha * (multiply n A x i + danglingMass n A x * p i) + (1 - alpha) * p i

/-- Modelled from the spec (§4.4 step 4): `delta = ‖next - current‖₁`,
a local partial sum followed by a global sum-reduction. -/
def l1delta (n : ℕ) (x y : Fin n → ℚ) : ℚ :=
  reduceSum ((List.finRange n).map (fun i => |x i - y i|))

/-- Modelled from the spec (§4.4): terminal states of the engine's state
machine, each carrying the vector it yields (partitioned as the matrix
rows), and for `DivergedOrMaxIterExceeded` the final delta; both report the
iteration count. -/
inductive PRResult (n : ℕ) where
  | Converged (v : Fin n → ℚ) (iters : ℕ)
  | DivergedOrMaxIterExceeded (v : Fin n → ℚ) (delta : ℚ) (iters : ℕ)

/-- Modelled from the spec (§4.4 step 5): the iteration loop.  `fuel` is
the number of further iterations the cap still allows; iteration `k+1`
computes the next estimate and its delta, converges when `delta < tol`,
reports `DivergedOrMaxIterExceeded` when the cap is exhausted, and
otherwise swaps `current ↔ next` and repeats. -/
def prLoop (n : ℕ) (A : Fin n → Fin n → ℚ) (p : Fin n → ℚ) (alpha tol : ℚ) :
    ℕ → (Fin n → ℚ) → ℕ → PRResult n
  | 0, cur, k =>
    let next := prStep n A p alpha cur
    let d := l1delta n next cur
    if d < tol then .Converged next (k + 1)
    else .DivergedOrMaxIterExceeded next d (k + 1)
  | fuel + 1, cur, k =>
    let next := prStep n A p alpha cur
    let d := l1delta n next cur
    if d < tol then .Converged next (k + 1)
    else prLoop n A p alpha tol fuel next (k + 1)

/-- Modelled from the spec (§4.4): run the engine from an explicit starting
vector (the initialization step sets it to the personalization vector; the
idempotence property restarts it from a converged output instead). -/
def ComputePageRankFrom (n : ℕ) (A : Fin n → Fin n → ℚ) (p : Fin n → ℚ)
    (alpha tol : ℚ) (maxIter : ℕ) (start : Fin n → ℚ) : PRResult n :=
  prLoop n A p alpha tol maxIter start 0

/-- Modelled from the spec (§4.4 initialization): the engine as specified,
starting from the personalization vector. -/
def ComputePageRankSpec (n : ℕ) (A : Fin n → Fin n → ℚ) (p : Fin n → ℚ)
    (alpha tol : ℚ) (maxIter : ℕ) : PRResult n :=
  ComputePageRankFrom n A p alpha tol maxIter p

/-! ## Personalization-vector loading (spec sections 3, 7 and 8)

The `-pvec` load path is not implemented in the source tree either; the
spec (§9) directs that it validate the sum-to-one invariant. -/

/-- Modelled from the spec (§7): the error taxonomy entry for
configuration errors. -/
inductive ConfigError where
  | personalizationSumNotOne
deriving DecidableEq

/-- Modelled from the spec (§3, §7, §8): loading a user-supplied
personalization vector validates, at load time, that its entries sum to 1
within a small epsilon; otherwise it fails with a `ConfigurationError`. -/
def loadPersonalization (eps : ℚ) (v : List ℚ) : Except ConfigError (List ℚ) :=
  if |v.sum - 1| ≤ eps then .ok v else .error .personalizationSumNotOne

end PPageRank

namespace PPageRank

/-! ## The binary matrix loader and partition balancer (spec §4.1, §4.2)

`MatLoadBSMAT` (declared in `petsc_util.h`, called at
`src/ppagerank.cc:110`) is not part of the source tree, so it is modelled
from the specification: it streams non-zero records in bounded chunks,
assembles the distributed matrix under a contiguous default row partition,
and, when redistribution is requested, rebalances the row partition by the
weighted prefix-sum scheme of §4.2. -/

/-- An on-disk matrix file (§6): header dimensions plus the list of
non-zero records `(row, column, weight)`. -/
structure BSMATFile where
  rows : ℕ
  cols : ℕ
  entries : List (ℕ × ℕ × ℚ)
deriving DecidableEq

/-- Splitting a record stream into bounded-size chunks: the structural
worker, with a fuel bound on the number of chunks. -/
def chunkedAux (bs : ℕ) : ℕ → List α → List (List α)
  | _, [] => []
  | 0, x :: xs => [x :: xs]
  | fuel + 1, x :: xs =>
    (x :: xs.take (bs - 1)) :: chunkedAux bs fuel (xs.drop (bs - 1))

/-- Modelled from the spec (§4.1): split a record stream into bounded-size
chunks (buffer size `bs`; a chunk holds at least one record, so the stream
length bounds the number of chunks). -/
def chunked (bs : ℕ) (l : List α) : List (List α) := chunkedAux bs l.length l

/-- Modelled from the spec (§4.1): the loader's record stream, read in
bounded chunks and forwarded chunk by chunk to the owning processes. -/
def streamRecords (bs : ℕ) (l : List (ℕ × ℕ × ℚ)) : List (ℕ × ℕ × ℚ) :=
  (chunked bs l).flatten

/-- Modelled from the spec (§4.1): the default contiguous block row
partition as the list of partition boundaries: process `k` owns rows
`[b k, b (k+1))`, sized by global row count divided by process count with
the remainder assigned to the lowest-ranked processes. -/
def defaultBounds (n nprocs : ℕ) : List ℕ :=
  (List.range (nprocs + 1)).map (fun k => k * (n / nprocs) + min k (n % nprocs))

/-- Number of non-zero records of a file that live in row `r`. -/
def rowNnz (entries : List (ℕ × ℕ × ℚ)) (r : ℕ) : ℕ :=
  (entries.filter (fun e => e.1 = r)).length

/-- Modelled from the spec (§4.2): the per-row cost
`w_rows + w_nnz * outdegree(row)` used by the balancer. -/
def rowCost (wrows wnnz : ℕ) (entries : List (ℕ × ℕ × ℚ)) (r : ℕ) : ℕ :=
  wrows + wnnz * rowNnz entries r

/-- Modelled from the spec (§4.2): prefix sums of the per-row costs;
entry `i` is the total cost of rows `0, …, i-1`. -/
def prefixCosts (wrows wnnz : ℕ) (entries : List (ℕ × ℕ × ℚ)) (n : ℕ) : List ℕ :=
  (List.range (n + 1)).map (fun i => ((List.range i).map (rowCost wrows wnnz entries)).sum)

/-- Modelled from the spec (§4.2): the row boundary whose cumulative cost
sits closest to `target / nprocs` (compared in the integers after scaling
by `nprocs`), ties broken in favour of the larger boundary so that the
boundary row goes to the lower-indexed process. -/
def bestBoundary (pre : List ℕ) (nprocs target : ℕ) : ℕ :=
  (List.range pre.length).foldl
    (fun best i =>
      if ((pre.getD i 0 : ℤ) * nprocs - target).natAbs ≤
          ((pre.getD best 0 : ℤ) * nprocs - target).natAbs
        then i else best)
    0

/-- Modelled from the spec (§4.2): the balanced row partition: boundary `k`
is the row index whose cumulative cost is closest to
`k * total_cost / nprocs`; if the total cost is zero the balancer falls
back to the even row-count split. -/
def balancedBounds (wrows wnnz : ℕ) (entries : List (ℕ × ℕ × ℚ)) (n nprocs : ℕ) : List ℕ :=
  let pre := prefixCosts wrows wnnz entries n
  let total := pre.getD n 0
  if total = 0 then defaultBounds n nprocs
  else (List.range (nprocs + 1)).map (fun k =>
    if k = 0 then 0 else if k = nprocs then n else bestBoundary pre nprocs (k * total))

/-- The distributed matrix a loader run produces: global dimensions, the
row-partition boundaries, the (default) column-layout boundaries, and the
assembled non-zero records. -/
structure DistMat where
  rows : ℕ
  cols : ℕ
  rowBounds : List ℕ
  colBounds : List ℕ
  entries : List (ℕ × ℕ × ℚ)
deriving DecidableEq

/-- Modelled from the spec (§4.1, §4.2): `MatLoadBSMAT`.  Streams the
file's records in chunks of the configured buffer size, assembles them
under the default contiguous row partition, and redistributes the rows by
the §4.2 balancer when redistribution is requested. -/
def MatLoadBSMAT (nprocs : ℕ) (file : BSMATFile) (bufsize : ℕ)
    (redistribute : Bool) (wnnz wrows : ℕ) : DistMat :=
  let recs := streamRecords bufsize file.entries
  { rows := file.rows
    cols := file.cols
    rowBounds :=
      if redistribute then balancedBounds wrows wnnz recs file.rows nprocs
      else defaultBounds file.rows nprocs
    colBounds := defaultBounds file.cols nprocs
    entries := recs }

/-! ## The driver (`src/ppagerank.cc`, embedded from the source) -/

/-- The PETSc option database slice the program advertises
(`src/ppagerank.cc` help text, lines 31-60), plus the undocumented
`-script` switch queried at line 101 and the raw argument count. -/
structure CmdOptions where
  argc : ℕ
  m : Option String
  script : Bool
  alpha : Option ℚ
  pvec : Option String
  trans : Bool
  noout : Bool
  bufsize : ℕ
  redistribute : Bool
  wnnz : ℕ
  wrows : ℕ
deriving DecidableEq

/-- `MPI_SUCCESS`, the success return code. -/
def MPI_SUCCESS : ℤ := 0

/-- The `ComputePageRank` stub (`src/ppagerank.cc:231-234`): its body is
`return (MPI_SUCCESS);`, so as a state transformer over any ambient state
it returns `MPI_SUCCESS` and passes the state through. -/
def ComputePageRank (σ : Type) (A : DistMat) (s : σ) : ℤ × σ :=
  (MPI_SUCCESS, s)

/-- Observable events of a driver run, in program order: the usage/help
message (line 73), the "no matrix file specified" options error (line 95),
the banner `WriteHeader` writes (line 107), the loaded matrix (line 110),
and the statistics `WriteSimpleMatrixStats` prints (line 112).  No run
emits `PageRankComputed`: the call at line 121 is commented out. -/
inductive Event where
  | HelpPrinted
  | OptionsErrorPrinted
  | HeaderWritten
  | MatrixLoaded
  | StatsWritten (rows cols nnz : ℕ) (localRows localCols localNz : List ℕ)
  | PageRankComputed
deriving DecidableEq

/-- Per-process partition sizes from a boundary list: consecutive
differences of the boundaries. -/
def boundCounts (bounds : List ℕ) : List ℕ :=
  bounds.zipWith (fun b a => a - b) bounds.tail

/-- Per-process local non-zero counts from the row boundaries. -/
def localNnzCounts (bounds : List ℕ) (entries : List (ℕ × ℕ × ℚ)) : List ℕ :=
  (bounds.zipWith (fun b a => (b, a)) bounds.tail).map
    (fun r => (entries.filter (fun e => r.1 ≤ e.1 ∧ e.1 < r.2)).length)

/-- The statistics event `WriteSimpleMatrixStats` (`src/ppagerank.cc:
177-217`) prints: global sizes, total non-zero count, and the per-process
local row, column and non-zero counts (the source prints their min/max,
which the lists determine). -/
def statsOf (A : DistMat) : Event :=
  .StatsWritten A.rows A.cols A.entries.length
    (boundCounts A.rowBounds) (boundCounts A.colBounds)
    (localNnzCounts A.rowBounds A.entries)

/-- The driver `main` (`src/ppagerank.cc:65-127`) as a function from the
process count, the file system (the file the matrix path resolves to, if
any) and the parsed options to the exit code and the trace of observable
events:
* `argc < 2` → print the help text, exit `-1` (lines 72-76);
* no `-m` option → print the options error, exit `-1` (lines 94-98);
* otherwise write the header, load the matrix (`CHKERRQ` propagates a
  failed load's nonzero error code, line 110), print the statistics and
  exit `0`.  Neither branch of the `-script` test at lines 114-122 does
  anything: the `ComputePageRank` call is commented out. -/
def mainRun (nprocs : ℕ) (fs : String → Option BSMATFile) (opts : CmdOptions) :
    ℤ × List Event :=
  if opts.argc < 2 then (-1, [.HelpPrinted])
  else
    match opts.m with
    | none => (-1, [.OptionsErrorPrinted])
    | some path =>
      match fs path with
      | none => (1, [.HeaderWritten])
      | some file =>
        let A := MatLoadBSMAT nprocs file opts.bufsize opts.redistribute
          opts.wnnz opts.wrows
        (0, [.HeaderWritten, .MatrixLoaded, statsOf A])

/-! ## Concrete instances used by witnesses and counterexamples -/

/-- A concrete 4×4 matrix file: nine non-zero records, all in row 0, so the
default partition is heavily unbalanced in non-zeros. -/
def exFile : BSMATFile :=
  { rows := 4
    cols := 4
    entries := [(0, 0, 1), (0, 1, 1), (0, 2, 1), (0, 3, 1), (0, 0, 1),
                (0, 1, 1), (0, 2, 1), (0, 3, 1), (0, 0, 1)] }

/-- A file system on which every path resolves to `exFile`. -/
def exFs : String → Option BSMATFile := fun _ => some exFile

/-- The baseline invocation `ppagerank -m A.bsmat` with default option
values. -/
def exOpts : CmdOptions :=
  { argc := 3
    m := some "A.bsmat"
    script := false
    alpha := none
    pvec := none
    trans := false
    noout := false
    bufsize := 4
    redistribute := false
    wnnz := 1
    wrows := 1 }

/-- The same invocation with `-matload_redistribute` added. -/
def exOptsRedist : CmdOptions := { exOpts with argc := 4, redistribute := true }

/-- The same invocation with `-alpha`, `-pvec`, `-trans`, `-noout` and a
different `-matload_root_nz_bufsize` added. -/
def exOptsVariant : CmdOptions :=
  { exOpts with
    argc := 11
    alpha := some (17/20)
    pvec := some "p.vec"
    trans := true
    noout := true
    bufsize := 7 }

/-- An invocation with the required `-m` option absent. -/
def exOptsNoM : CmdOptions := { exOpts with argc := 2, m := none }

/-- A one-node graph with no edges (so node 0 is dangling). -/
def exA1 : Fin 1 → Fin 1 → ℚ := fun _ _ => 0

/-- The (only possible) personalization vector on one node. -/
def exP1 : Fin 1 → ℚ := fun _ => 1

/-- A two-node graph in which node 0 links to both nodes and node 1 is
dangling. -/
def exA2 : Fin 2 → Fin 2 → ℚ := fun r _ => if r = 0 then 1 else 0

/-- The uniform personalization vector on two nodes. -/
def exP2 : Fin 2 → ℚ := fun _ => 1/2

/-- A probability vector on two nodes with all mass on node 0. -/
def exX2 : Fin 2 → ℚ := fun i => if i = 0 then 1 else 0

end PPageRank

namespace PPageRank

/-! ## Closed forms for the list-fold reductions -/

theorem reduceSum_eq_sum (l : List ℚ) : reduceSum l = l.sum := by
  simp [reduceSum, List.sum]

theorem reduceSum_map_eq_sum {n : ℕ} (f : Fin n → ℚ) :
    reduceSum ((List.finRange n).map f) = ∑ i, f i := by
  rw [reduceSum_eq_sum, Fin.sum_univ_def]

theorem outdeg_eq_sum (n : ℕ) (A : Fin n → Fin n → ℚ) (r : Fin n) :
    outdeg n A r = ∑ c, A r c := reduceSum_map_eq_sum _

theorem multiply_eq_sum (n : ℕ) (A : Fin n → Fin n → ℚ) (x : Fin n → ℚ) (i : Fin n) :
    multiply n A x i = ∑ j, pmat n A j i * x j := reduceSum_map_eq_sum _

theorem danglingMass_eq_sum (n : ℕ) (A : Fin n → Fin n → ℚ) (x : Fin n → ℚ) :
    danglingMass n A x = ∑ r, if outdeg n A r = 0 then x r else 0 :=
  reduceSum_map_eq_sum _

theorem l1delta_eq_sum (n : ℕ) (x y : Fin n → ℚ) :
    l1delta n x y = ∑ i, |x i - y i| := reduceSum_map_eq_sum _

/-! ## Algebraic properties of the engine's transition step -/

theorem pmat_rowsum (n : ℕ) (A : Fin n → Fin n → ℚ) (r : Fin n) :
    ∑ c, pmat n A r c = if outdeg n A r = 0 then 0 else 1 := by
  by_cases h : outdeg n A r = 0
  · simp [pmat, h]
  · simp only [pmat, if_neg h]
    rw [← Finset.sum_div, ← outdeg_eq_sum, div_self h]

theorem pmat_nonneg (n : ℕ) (A : Fin n → Fin n → ℚ)
    (hA : ∀ r c, 0 ≤ A r c) (r c : Fin n) : 0 ≤ pmat n A r c := by
  by_cases h : outdeg n A r = 0
  · simp [pmat, h]
  · have hd : 0 ≤ outdeg n A r := by
      rw [outdeg_eq_sum]; exact Finset.sum_nonneg fun c _ => hA r c
    simp only [pmat, if_neg h]
    exact div_nonneg (hA r c) hd

theorem sum_multiply (n : ℕ) (A : Fin n → Fin n → ℚ) (x : Fin n → ℚ) :
    ∑ i, multiply n A x i = (∑ j, x j) - danglingMass n A x := by
  simp only [multiply_eq_sum]
  rw [Finset.sum_comm]
  have h : ∀ j : Fin n, ∑ i, pmat n A j i * x j =
      (if outdeg n A j = 0 then 0 else 1) * x j := by
    intro j
    rw [← Finset.sum_mul, pmat_rowsum]
  rw [Finset.sum_congr rfl fun j _ => h j, danglingMass_eq_sum]
  rw [← Finset.sum_sub_distrib]
  refine Finset.sum_congr rfl fun j _ => ?_
  by_cases hj : outdeg n A j = 0 <;> simp [hj]

theorem sum_prStep (n : ℕ) (A : Fin n → Fin n → ℚ) (p : Fin n → ℚ)
    (alpha : ℚ) (x : Fin n → ℚ) (hp : ∑ i, p i = 1) :
    ∑ i, prStep n A p alpha x i = alpha * (∑ i, x i) + (1 - alpha) := by
  simp only [prStep]
  rw [Finset.sum_add_distrib, ← Finset.mul_sum, ← Finset.mul_sum,
    Finset.sum_add_distrib, sum_multiply, ← Finset.mul_sum, hp]
  ring

theorem prStep_sub (n : ℕ) (A : Fin n → Fin n → ℚ) (p : Fin n → ℚ)
    (alpha : ℚ) (x y : Fin n → ℚ) (i : Fin n) :
    prStep n A p alpha x i - prStep n A p alpha y i =
      alpha * ((∑ j, pmat n A j i * (x j - y j)) +
        (∑ r, if outdeg n A r = 0 then x r - y r else 0) * p i) := by
  have hm : ∑ j, pmat n A j i * (x j - y j) =
      multiply n A x i - multiply n A y i := by
    simp only [multiply_eq_sum, ← Finset.sum_sub_distrib, mul_sub]
  have hd : (∑ r, if outdeg n A r = 0 then x r - y r else 0) =
      danglingMass n A x - danglingMass n A y := by
    simp only [danglingMass_eq_sum, ← Finset.sum_sub_distrib]
    refine Finset.sum_congr rfl fun r _ => ?_
    by_cases hr : outdeg n A r = 0 <;> simp [hr]
  rw [hm, hd, prStep, prStep]
  ring

theorem l1delta_nonneg (n : ℕ) (x y : Fin n → ℚ) : 0 ≤ l1delta n x y := by
  rw [l1delta_eq_sum]
  exact Finset.sum_nonneg fun i _ => abs_nonneg _

theorem l1delta_self (n : ℕ) (x : Fin n → ℚ) : l1delta n x x = 0 := by
  simp [l1delta_eq_sum]

/-- The transition step is an `alpha`-contraction in the L1 norm, for a
nonnegative matrix and a nonnegative personalization vector of total mass
one. -/
theorem prStep_contraction (n : ℕ) (A : Fin n → Fin n → ℚ) (p : Fin n → ℚ)
    (alpha : ℚ) (x y : Fin n → ℚ) (hA : ∀ r c, 0 ≤ A r c)
    (hp : ∀ i, 0 ≤ p i) (hps : ∑ i, p i = 1) (ha0 : 0 ≤ alpha) :
    l1delta n (prStep n A p alpha x) (prStep n A p alpha y) ≤
      alpha * l1delta n x y := by
  set D : ℚ := ∑ r, if outdeg n A r = 0 then x r - y r else 0 with hD
  have habs : ∀ i, |prStep n A p alpha x i - prStep n A p alpha y i| ≤
      alpha * (|∑ j, pmat n A j i * (x j - y j)| + |D| * p i) := by
    intro i
    rw [prStep_sub, abs_mul, abs_of_nonneg ha0]
    refine mul_le_mul_of_nonneg_left ?_ ha0
    calc |(∑ j, pmat n A j i * (x j - y j)) + D * p i| ≤
        |∑ j, pmat n A j i * (x j - y j)| + |D * p i| := abs_add _ _
      _ = |∑ j, pmat n A j i * (x j - y j)| + |D| * p i := by
          rw [abs_mul, abs_of_nonneg (hp i)]
  have hMsum : ∑ i, |∑ j, pmat n A j i * (x j - y j)| ≤
      ∑ j, (if outdeg n A j = 0 then 0 else 1) * |x j - y j| := by
    calc ∑ i, |∑ j, pmat n A j i * (x j - y j)| ≤
        ∑ i, ∑ j, |pmat n A j i * (x j - y j)| :=
          Finset.sum_le_sum fun i _ => Finset.abs_sum_le_sum_abs _ _
      _ = ∑ j, ∑ i, pmat n A j i * |x j - y j| := by
          rw [Finset.sum_comm]
          refine Finset.sum_congr rfl fun j _ => Finset.sum_congr rfl fun i _ => ?_
          rw [abs_mul, abs_of_nonneg (pmat_nonneg n A hA j i)]
      _ = ∑ j, (if outdeg n A j = 0 then 0 else 1) * |x j - y j| := by
          refine Finset.sum_congr rfl fun j _ => ?_
          rw [← Finset.sum_mul, pmat_rowsum]
  have hDabs : |D| ≤ ∑ j, (if outdeg n A j = 0 then 1 else 0) * |x j - y j| := by
    calc |D| ≤ ∑ r, |if outdeg n A r = 0 then x r - y r else 0| :=
        Finset.abs_sum_le_sum_abs _ _
      _ = ∑ j, (if outdeg n A j = 0 then 1 else 0) * |x j - y j| := by
          refine Finset.sum_congr rfl fun j _ => ?_
          by_cases hj : outdeg n A j = 0 <;> simp [hj]
  calc l1delta n (prStep n A p alpha x) (prStep n A p alpha y)
      = ∑ i, |prStep n A p alpha x i - prStep n A p alpha y i| := l1delta_eq_sum _ _ _
    _ ≤ ∑ i, alpha * (|∑ j, pmat n A j i * (x j - y j)| + |D| * p i) :=
        Finset.sum_le_sum fun i _ => habs i
    _ = alpha * ((∑ i, |∑ j, pmat n A j i * (x j - y j)|) + |D| * ∑ i, p i) := by
        rw [← Finset.mul_sum, Finset.sum_add_distrib, ← Finset.mul_sum]
    _ = alpha * ((∑ i, |∑ j, pmat n A j i * (x j - y j)|) + |D|) := by
        rw [hps, mul_one]
    _ ≤ alpha * ((∑ j, (if outdeg n A j = 0 then 0 else 1) * |x j - y j|) +
          ∑ j, (if outdeg n A j = 0 then 1 else 0) * |x j - y j|) := by
        refine mul_le_mul_of_nonneg_left (add_le_add hMsum hDabs) ha0
    _ = alpha * l1delta n x y := by
        rw [← Finset.sum_add_distrib, l1delta_eq_sum]
        congr 1
        refine Finset.sum_congr rfl fun j _ => ?_
        by_cases hj : outdeg n A j = 0 <;> simp [hj]

/-! ## The iteration loop: termination dichotomy and convergence facts -/

/-- Every run of the iteration loop ends in one of the two terminal states:
`Converged`, reached by an iteration whose delta is below tolerance, or
`DivergedOrMaxIterExceeded`, reached when the fuel (the iterations the cap
still allows) runs out with the final delta at or above tolerance. -/
theorem prLoop_cases (n : ℕ) (A : Fin n → Fin n → ℚ) (p : Fin n → ℚ)
    (alpha tol : ℚ) (fuel : ℕ) : ∀ (cur : Fin n → ℚ) (k : ℕ),
    (∃ c j, prLoop n A p alpha tol fuel cur k = .Converged (prStep n A p alpha c) j ∧
      l1delta n (prStep n A p alpha c) c < tol ∧ k + 1 ≤ j ∧ j ≤ k + fuel + 1) ∨
    (∃ c, prLoop n A p alpha tol fuel cur k =
        .DivergedOrMaxIterExceeded (prStep n A p alpha c)
          (l1delta n (prStep n A p alpha c) c) (k + fuel + 1) ∧
      tol ≤ l1delta n (prStep n A p alpha c) c) := by
  induction fuel with
  | zero =>
    intro cur k
    by_cases hd : l1delta n (prStep n A p alpha cur) cur < tol
    · exact .inl ⟨cur, k + 1, by simp [prLoop, hd], hd, le_refl _, by omega⟩
    · exact .inr ⟨cur, by simp [prLoop, hd], not_lt.mp hd⟩
  | succ fuel ih =>
    intro cur k
    by_cases hd : l1delta n (prStep n A p alpha cur) cur < tol
    · exact .inl ⟨cur, k + 1, by simp [prLoop, hd], hd, le_refl _, by omega⟩
    · have hstep : prLoop n A p alpha tol (fuel + 1) cur k =
          prLoop n A p alpha tol fuel (prStep n A p alpha cur) (k + 1) := by
        simp [prLoop, hd]
      rcases ih (prStep n A p alpha cur) (k + 1) with
        ⟨c, j, heq, hlt, hj1, hj2⟩ | ⟨c, heq, hge⟩
      · exact .inl ⟨c, j, hstep ▸ heq, hlt, by omega, by omega⟩
      · refine .inr ⟨c, ?_, hge⟩
        rw [hstep, heq]
        congr 1
        omega

/-- A `Converged` outcome of the loop comes from an iteration whose next
estimate was within tolerance of its current one. -/
theorem prLoop_converged_inv (n : ℕ) (A : Fin n → Fin n → ℚ) (p : Fin n → ℚ)
    (alpha tol : ℚ) (fuel : ℕ) (cur : Fin n → ℚ) (k : ℕ) (v : Fin n → ℚ) (j : ℕ)
    (h : prLoop n A p alpha tol fuel cur k = .Converged v j) :
    ∃ c, v = prStep n A p alpha c ∧ l1delta n v c < tol := by
  rcases prLoop_cases n A p alpha tol fuel cur k with
    ⟨c, j', heq, hlt, _, _⟩ | ⟨c, heq, _⟩
  · rw [h] at heq
    cases heq
    exact ⟨c, rfl, hlt⟩
  · rw [h] at heq
    cases heq

/-- If the very first iteration's delta is below tolerance, the loop stops
at once, converged at iteration count `k + 1`. -/
theorem prLoop_first_step (n : ℕ) (A : Fin n → Fin n → ℚ) (p : Fin n → ℚ)
    (alpha tol : ℚ) (fuel : ℕ) (cur : Fin n → ℚ) (k : ℕ)
    (hd : l1delta n (prStep n A p alpha cur) cur < tol) :
    prLoop n A p alpha tol fuel cur k = .Converged (prStep n A p alpha cur) (k + 1) := by
  cases fuel <;> simp [prLoop, hd]

/-- With `alpha = 0` the transition step returns the personalization vector
itself, whatever the current estimate. -/
theorem prStep_alpha_zero (n : ℕ) (A : Fin n → Fin n → ℚ) (p : Fin n → ℚ)
    (x : Fin n → ℚ) : prStep n A p 0 x = p := by
  funext i
  simp [prStep]

/-! ## Loader facts -/

theorem chunkedAux_flatten (bs : ℕ) :
    ∀ (fuel : ℕ) (l : List α), l.length ≤ fuel + 1 →
      (chunkedAux bs fuel l).flatten = l := by
  intro fuel
  induction fuel with
  | zero =>
    intro l _
    match l with
    | [] => rfl
    | x :: xs => simp [chunkedAux]
  | succ fuel ih =>
    intro l hl
    match l with
    | [] => rfl
    | x :: xs =>
      have hdrop : (xs.drop (bs - 1)).length ≤ fuel + 1 := by
        simp only [List.length_cons, List.length_drop] at hl ⊢
        omega
      simp only [chunkedAux, List.flatten_cons, ih _ hdrop]
      simp

theorem chunked_flatten (bs : ℕ) (l : List α) : (chunked bs l).flatten = l :=
  chunkedAux_flatten bs l.length l (by omega)

/-- Streaming the records in bounded chunks reassembles exactly the
original record sequence, whatever the buffer size. -/
theorem streamRecords_eq (bs : ℕ) (l : List (ℕ × ℕ × ℚ)) :
    streamRecords bs l = l := chunked_flatten bs l

/-- The loaded matrix does not depend on the streaming buffer size. -/
theorem MatLoadBSMAT_bufsize_irrelevant (nprocs : ℕ) (file : BSMATFile)
    (b b' : ℕ) (redistribute : Bool) (wnnz wrows : ℕ) :
    MatLoadBSMAT nprocs file b redistribute wnnz wrows =
      MatLoadBSMAT nprocs file b' redistribute wnnz wrows := by
  simp [MatLoadBSMAT, streamRecords_eq]

/-! ## The claims -/

/-- C1: on a run that successfully loads the matrix (`ppagerank -m
A.bsmat`, two processes, no `-script`), the driver exits with code 0 but
never invokes the PageRank engine: the `ComputePageRank` call at
`src/ppagerank.cc:121` is commented out and the function itself is an empty
stub, so no PageRank vector is produced.  This contradicts the claimed
control flow. -/
theorem main_loads_but_never_runs_engine :
    (mainRun 2 exFs exOpts).1 = 0 ∧
    Event.MatrixLoaded ∈ (mainRun 2 exFs exOpts).2 ∧
    Event.PageRankComputed ∉ (mainRun 2 exFs exOpts).2 := by
  decide

/-- C2: in every iteration of the (spec-modelled) PageRank engine, the next
vector entry at every locally owned index `i` is
`alpha * (y i + dangling_mass * p i) + (1 - alpha) * p i`, where
`y = multiply current` and `dangling_mass` is the global sum of the current
vector over the dangling rows. -/
theorem prStep_formula (n : ℕ) (A : Fin n → Fin n → ℚ) (p : Fin n → ℚ)
    (alpha : ℚ) (x : Fin n → ℚ) (i : Fin n) :
    prStep n A p alpha x i =
      alpha * (multiply n A x i +
        (∑ r ∈ Finset.univ.filter fun r => outdeg n A r = 0, x r) * p i) +
      (1 - alpha) * p i := by
  rw [prStep, danglingMass_eq_sum, Finset.sum_filter]

/-- C3: mass conservation: if the personalization vector sums to 1 and the
current vector sums to 1, the vector produced by a transition step of the
(spec-modelled) engine again sums to 1 (exactly, in rational
arithmetic). -/
theorem mass_conservation (n : ℕ) (A : Fin n → Fin n → ℚ) (p : Fin n → ℚ)
    (alpha : ℚ) (x : Fin n → ℚ) (hp : ∑ i, p i = 1) (hx : ∑ i, x i = 1) :
    ∑ i, prStep n A p alpha x i = 1 := by
  rw [sum_prStep n A p alpha x hp, hx]
  ring

/-- C3 witness: the mass-conservation theorem applied to the concrete
two-node instance with `alpha = 0.85`. -/
theorem mass_conservation_witness :
    (∑ i, exP2 i) = 1 ∧ (∑ i, exX2 i) = 1 ∧
    (∑ i, prStep 2 exA2 exP2 (17/20) exX2 i) = 1 :=
  ⟨by norm_num [exP2, Fin.sum_univ_two],
   by norm_num [exX2, Fin.sum_univ_two],
   mass_conservation 2 exA2 exP2 (17/20) exX2
     (by norm_num [exP2, Fin.sum_univ_two])
     (by norm_num [exX2, Fin.sum_univ_two])⟩

/-- C4: the (spec-modelled) engine always terminates in one of exactly two
ways: some iteration `j ≤ maxIter + 1` reaches `delta < tol` and the engine
ends `Converged`, or the iteration count exceeds the configured maximum and
the engine ends `DivergedOrMaxIterExceeded`, reporting the last vector, the
final delta (still at or above tolerance) and the iteration count. -/
theorem engine_terminates (n : ℕ) (A : Fin n → Fin n → ℚ) (p : Fin n → ℚ)
    (alpha tol : ℚ) (maxIter : ℕ) :
    (∃ c j, ComputePageRankSpec n A p alpha tol maxIter =
        .Converged (prStep n A p alpha c) j ∧
      l1delta n (prStep n A p alpha c) c < tol ∧ 1 ≤ j ∧ j ≤ maxIter + 1) ∨
    (∃ c, ComputePageRankSpec n A p alpha tol maxIter =
        .DivergedOrMaxIterExceeded (prStep n A p alpha c)
          (l1delta n (prStep n A p alpha c) c) (maxIter + 1) ∧
      tol ≤ l1delta n (prStep n A p alpha c) c) := by
  simpa [ComputePageRankSpec, ComputePageRankFrom] using
    prLoop_cases n A p alpha tol maxIter p 0

/-- C5: if the required `-m` option is absent, `main` reports the error
(the help text when `argc < 2`, the "no matrix file specified" message
otherwise), never reaches the matrix load, and exits with the nonzero code
`-1`; conversely an exit code of 0 occurs only when a matrix path was given
and its file loaded, with the statistics written. -/
theorem main_requires_matrix_option (nprocs : ℕ)
    (fs : String → Option BSMATFile) (opts : CmdOptions) :
    (opts.m = none →
      (mainRun nprocs fs opts).1 ≠ 0 ∧
      ((mainRun nprocs fs opts).2 = [.HelpPrinted] ∨
        (mainRun nprocs fs opts).2 = [.OptionsErrorPrinted])) ∧
    ((mainRun nprocs fs opts).1 = 0 →
      ∃ path file, opts.m = some path ∧ fs path = some file ∧
        (mainRun nprocs fs opts).2 = [.HeaderWritten, .MatrixLoaded,
          statsOf (MatLoadBSMAT nprocs file opts.bufsize opts.redistribute
            opts.wnnz opts.wrows)]) := by
  constructor
  · intro hm
    rw [mainRun]
    by_cases ha : opts.argc < 2
    · simp [ha]
    · simp [ha, hm]
  · intro h0
    rw [mainRun] at h0 ⊢
    by_cases ha : opts.argc < 2
    · simp [ha] at h0
    · cases hm : opts.m with
      | none => simp [ha, hm] at h0
      | some path =>
        cases hf : fs path with
        | none => simp [ha, hm, hf] at h0
        | some file =>
          exact ⟨path, file, rfl, hf, by simp [ha, hf]⟩

/-- C5 witness: the no-matrix theorem applied to a concrete invocation
without `-m`. -/
theorem main_requires_matrix_option_witness :
    (mainRun 2 exFs exOptsNoM).1 ≠ 0 ∧
    ((mainRun 2 exFs exOptsNoM).2 = [.HelpPrinted] ∨
      (mainRun 2 exFs exOptsNoM).2 = [.OptionsErrorPrinted]) :=
  (main_requires_matrix_option 2 exFs exOptsNoM).1 rfl

/-- C6: the (spec-modelled) personalization-vector load path accepts a
vector exactly when its entries sum to 1 within the epsilon, and fails with
the configuration error exactly otherwise. -/
theorem loadPersonalization_validates (eps : ℚ) (v : List ℚ) :
    (loadPersonalization eps v = .ok v ↔ |v.sum - 1| ≤ eps) ∧
    (loadPersonalization eps v = .error .personalizationSumNotOne ↔
      ¬ |v.sum - 1| ≤ eps) := by
  unfold loadPersonalization
  by_cases h : |v.sum - 1| ≤ eps <;> simp [h]

/-- C6 witness: the validation theorem applied to a concrete valid vector
and a concrete invalid one. -/
theorem loadPersonalization_validates_witness :
    loadPersonalization (1/100) [(1:ℚ)/2, 1/2] = .ok [(1:ℚ)/2, 1/2] ∧
    loadPersonalization (1/100) [(1:ℚ)/2, 1/4] =
      .error .personalizationSumNotOne :=
  ⟨((loadPersonalization_validates (1/100) [(1:ℚ)/2, 1/2]).1).mpr (by norm_num),
   ((loadPersonalization_validates (1/100) [(1:ℚ)/2, 1/4]).2).mpr
     (by norm_num [abs_le])⟩

/-- C7: with `alpha = 0` the (spec-modelled) engine converges in exactly
one iteration, and the PageRank vector it yields is the personalization
vector itself (for any positive tolerance). -/
theorem alpha_zero_one_iteration (n : ℕ) (A : Fin n → Fin n → ℚ)
    (p : Fin n → ℚ) (tol : ℚ) (maxIter : ℕ) (h : 0 < tol) :
    ComputePageRankSpec n A p 0 tol maxIter = .Converged p 1 := by
  have hd : l1delta n (prStep n A p 0 p) p < tol := by
    rw [prStep_alpha_zero, l1delta_self]
    exact h
  have hfirst := prLoop_first_step n A p 0 tol maxIter p 0 hd
  rw [ComputePageRankSpec, ComputePageRankFrom, hfirst, prStep_alpha_zero]

/-- C7 witness: the `alpha = 0` theorem applied to the one-node
instance. -/
theorem alpha_zero_one_iteration_witness :
    (0:ℚ) < 1 ∧ ComputePageRankSpec 1 exA1 exP1 0 1 5 = .Converged exP1 1 :=
  ⟨by norm_num, alpha_zero_one_iteration 1 exA1 exP1 1 5 (by norm_num)⟩

/-- C8: idempotence of the converged (spec-modelled) engine: for a
nonnegative matrix, a nonnegative personalization vector of total mass 1
and `0 ≤ alpha ≤ 1`, restarting the engine from a converged output `v`
(in place of the personalization vector) converges on the very first
iteration of the second run: its first delta is already below tolerance. -/
theorem engine_idempotent (n : ℕ) (A : Fin n → Fin n → ℚ) (p : Fin n → ℚ)
    (alpha tol : ℚ) (maxIter maxIter' : ℕ)
    (hA : ∀ r c, 0 ≤ A r c) (hp : ∀ i, 0 ≤ p i) (hps : ∑ i, p i = 1)
    (ha0 : 0 ≤ alpha) (ha1 : alpha ≤ 1) (v : Fin n → ℚ) (j : ℕ)
    (hconv : ComputePageRankSpec n A p alpha tol maxIter = .Converged v j) :
    ComputePageRankFrom n A p alpha tol maxIter' v =
      .Converged (prStep n A p alpha v) 1 := by
  obtain ⟨c, hv, hlt⟩ := prLoop_converged_inv n A p alpha tol maxIter p 0 v j hconv
  have hcontr := prStep_contraction n A p alpha v c hA hp hps ha0
  rw [← hv] at hcontr
  have hd : l1delta n (prStep n A p alpha v) v < tol :=
    calc l1delta n (prStep n A p alpha v) v ≤ alpha * l1delta n v c := hcontr
      _ ≤ l1delta n v c := mul_le_of_le_one_left (l1delta_nonneg n v c) ha1
      _ < tol := hlt
  exact prLoop_first_step n A p alpha tol maxIter' v 0 hd

/-- C8 witness: the idempotence theorem applied to the one-node instance
with `alpha = 1/2`, whose first run converges at iteration 1. -/
theorem engine_idempotent_witness :
    ComputePageRankFrom 1 exA1 exP1 (1/2) 1 4 (prStep 1 exA1 exP1 (1/2) exP1) =
      .Converged (prStep 1 exA1 exP1 (1/2) (prStep 1 exA1 exP1 (1/2) exP1)) 1 :=
  engine_idempotent 1 exA1 exP1 (1/2) 1 3 4
    (by intro r c; norm_num [exA1])
    (by intro i; norm_num [exP1])
    (by norm_num [exP1, Fin.sum_univ_one])
    (by norm_num) (by norm_num)
    (prStep 1 exA1 exP1 (1/2) exP1) 1
    (prLoop_first_step 1 exA1 exP1 (1/2) 1 3 exP1 0
      (by norm_num [l1delta_eq_sum, prStep, multiply_eq_sum, danglingMass_eq_sum,
        outdeg_eq_sum, pmat, exA1, exP1, Fin.sum_univ_one]))

/-- C9: the `ComputePageRank` stub returns `MPI_SUCCESS`, passes any
ambient state through unchanged, and never reads its matrix argument (it is
a constant function of `A`). -/
theorem ComputePageRank_stub_noop (σ : Type) (A A' : DistMat) (s : σ) :
    ComputePageRank σ A s = (MPI_SUCCESS, s) ∧
    ComputePageRank σ A s = ComputePageRank σ A' s :=
  ⟨rfl, rfl⟩

/-- C10 counterexample: two invocations identical except that the second
adds `-matload_redistribute` produce different observable behavior: the
redistributed partition of `exFile` is `[1, 3]` rows per process instead of
the default `[2, 2]`, so the printed matrix statistics differ. -/
theorem matload_redistribute_affects_output :
    mainRun 2 exFs exOpts ≠ mainRun 2 exFs exOptsRedist := by
  decide

/-- C10 (amended): runs that differ only in `-alpha`, `-pvec`, `-trans`,
`-noout` or `-matload_root_nz_bufsize` (same matrix path, same process
group, same redistribution settings, both with at least one argument)
exhibit identical behavior; the redistribution options are excluded because
the loader consults them. -/
theorem pagerank_options_noninterference (nprocs : ℕ)
    (fs : String → Option BSMATFile) (o o' : CmdOptions)
    (h1 : 2 ≤ o.argc) (h2 : 2 ≤ o'.argc) (hm : o.m = o'.m)
    (hr : o.redistribute = o'.redistribute) (hwn : o.wnnz = o'.wnnz)
    (hwr : o.wrows = o'.wrows) :
    mainRun nprocs fs o = mainRun nprocs fs o' := by
  rw [mainRun, mainRun, if_neg (by omega), if_neg (by omega), ← hm, ← hr,
    ← hwn, ← hwr]
  cases o.m with
  | none => rfl
  | some path =>
    cases hf : fs path with
    | none => simp [hf]
    | some file =>
      simp only [hf]
      rw [MatLoadBSMAT_bufsize_irrelevant nprocs file o.bufsize o'.bufsize]

/-- C10 witness: the noninterference theorem applied to the baseline
invocation and its variant with `-alpha`, `-pvec`, `-trans`, `-noout` and a
different buffer size. -/
theorem pagerank_options_noninterference_witness :
    mainRun 2 exFs exOpts = mainRun 2 exFs exOptsVariant :=
  pagerank_options_noninterference 2 exFs exOpts exOptsVariant
    (by norm_num [exOpts]) (by norm_num [exOptsVariant, exOpts])
    rfl rfl rfl rfl

end PPageRank
